import Mathlib

/-!
Verification of the stream/status aggregation and retry subsystem of
`adk-python`, shallowly embedded from the source:

* `src/google/adk/a2a/executor/task_result_aggregator.py`
  (`TaskResultAggregator.process_event`)
* `src/google/adk/models/google_llm.py`
  (`Gemini.generate_content_async` streaming branch, `RetryConfig`,
  `retry_on_resumable_error`, `Gemini._build_retry_wrapper`)
-/

namespace Adk

/-! ## Task result aggregator (task_result_aggregator.py) -/

/-- The a2a `TaskState` enum values. -/
inductive TaskState where
  | submitted
  | working
  | input_required
  | completed
  | canceled
  | failed
  | rejected
  | auth_required
  | unknown
deriving DecidableEq, Repr

/-- The `status` carried by a `TaskStatusUpdateEvent`: a state plus an
optional human-readable message. -/
structure TaskStatus where
  state : TaskState
  message : Option String
deriving DecidableEq, Repr

/-- An event seen by `TaskResultAggregator.process_event`: either a
`TaskStatusUpdateEvent` or some other event type (which the aggregator
ignores, per the `isinstance` check). -/
inductive A2aEvent where
  | statusUpdate (status : TaskStatus)
  | other
deriving DecidableEq, Repr

/-- The mutable fields of `TaskResultAggregator` (`_task_state`,
`_task_status_message`), exposed through the read-only properties
`task_state` and `task_status_message`. -/
structure TaskResultAggregator where
  task_state : TaskState
  task_status_message : Option String
deriving DecidableEq, Repr

/-- `TaskResultAggregator.__init__`: state `working`, message `None`. -/
def TaskResultAggregator.init : TaskResultAggregator :=
  { task_state := .working, task_status_message := none }

/-- `TaskResultAggregator.process_event`.  The Python method mutates both the
aggregator (`self._task_state`, `self._task_status_message`) and the event
(`event.status.state = TaskState.working`); we return the updated aggregator
together with the forwarded event. -/
def process_event (agg : TaskResultAggregator) (event : A2aEvent) :
    TaskResultAggregator × A2aEvent :=
  match event with
  | .other => (agg, .other)
  | .statusUpdate st =>
      let agg' : TaskResultAggregator :=
        if st.state = .failed then
          { task_state := .failed, task_status_message := st.message }
        else if st.state = .auth_required ∧ agg.task_state ≠ .failed then
          { task_state := .auth_required, task_status_message := st.message }
        else if st.state = .input_required ∧
            agg.task_state ≠ .failed ∧ agg.task_state ≠ .auth_required then
          { task_state := .input_required, task_status_message := st.message }
        else if agg.task_state = .working then
          { agg with task_status_message := st.message }
        else
          agg
      (agg', .statusUpdate { st with state := .working })

/-- Process a whole sequence of events, keeping only the aggregator state. -/
def processAll (agg : TaskResultAggregator) (events : List A2aEvent) :
    TaskResultAggregator :=
  events.foldl (fun a e => (process_event a e).1) agg

/-- Numeric precedence of the four states the aggregator branches on
(`failed > auth_required > input_required > working`); every other state
ranks at the bottom. -/
def prec : TaskState → Nat
  | .failed => 3
  | .auth_required => 2
  | .input_required => 1
  | _ => 0

/-- Pick the higher-precedence of two states, keeping the first on ties. -/
def maxState (a b : TaskState) : TaskState :=
  if prec a < prec b then b else a

/-- The status value of a `statusUpdate` event (`working` for other events,
which never affect the state). -/
def eventState : A2aEvent → TaskState
  | .statusUpdate st => st.state
  | .other => .working

/-- The four status values the precedence ordering ranks. -/
def coreState (s : TaskState) : Prop :=
  s = .working ∨ s = .input_required ∨ s = .auth_required ∨ s = .failed

instance (s : TaskState) : Decidable (coreState s) := by
  unfold coreState; infer_instance

/-- One `process_event` step moves the recorded state to the
higher-precedence of the current state and the event's state. -/
lemma process_event_state (agg : TaskResultAggregator) (st : TaskStatus) :
    ((process_event agg (.statusUpdate st)).1).task_state =
      maxState agg.task_state st.state := by
  cases hs : st.state <;> cases ha : agg.task_state <;>
    simp [process_event, maxState, prec, hs, ha]

/-- Folding `process_event` over any event list computes the `maxState`-fold
of the event states. -/
lemma processAll_state (es : List A2aEvent) :
    ∀ agg : TaskResultAggregator,
      (processAll agg es).task_state =
        (es.map eventState).foldl maxState agg.task_state := by
  induction es with
  | nil => intro agg; rfl
  | cons e t ih =>
      intro agg
      cases e with
      | statusUpdate st =>
          have h := process_event_state agg st
          simpa [processAll, eventState, List.foldl, h] using
            ih (process_event agg (.statusUpdate st)).1
      | other =>
          have hkeep : maxState agg.task_state TaskState.working =
              agg.task_state := by
            cases agg.task_state <;> simp [maxState, prec]
          simpa [processAll, eventState, List.foldl, hkeep] using ih agg

/-- The `maxState` fold always lands on one of its inputs. -/
lemma foldl_maxState_mem (l : List TaskState) :
    ∀ a : TaskState, l.foldl maxState a ∈ a :: l := by
  induction l with
  | nil => intro a; simp
  | cons b t ih =>
      intro a
      have hab : maxState a b = a ∨ maxState a b = b := by
        unfold maxState; split <;> simp
      rcases List.mem_cons.mp (ih (maxState a b)) with h | h
      · rcases hab with h2 | h2 <;> rw [h2] at h <;> simp [List.foldl, h, h2]
      · simp [List.foldl]
        exact Or.inr (Or.inr h)

/-- The `maxState` fold dominates every input in precedence. -/
lemma foldl_maxState_le (l : List TaskState) :
    ∀ a : TaskState, ∀ x ∈ a :: l, prec x ≤ prec (l.foldl maxState a) := by
  induction l with
  | nil => intro a x hx; simp at hx; simp [hx]
  | cons b t ih =>
      intro a x hx
      have ha : prec a ≤ prec (maxState a b) := by
        unfold maxState; split <;> omega
      have hb : prec b ≤ prec (maxState a b) := by
        unfold maxState; split <;> omega
      have hm : prec (maxState a b) ≤ prec ((b :: t).foldl maxState a) := by
        simp only [List.foldl_cons]
        exact ih (maxState a b) _ (List.mem_cons_self _ _)
      rcases List.mem_cons.mp hx with h | h
      · rw [h]; exact le_trans ha hm
      · rcases List.mem_cons.mp h with h2 | h2
        · rw [h2]; exact le_trans hb hm
        · simp only [List.foldl_cons]
          exact ih (maxState a b) x (List.mem_cons_of_mem _ h2)

/-- On core states, folding from `working` starts at the first state. -/
lemma maxState_working (s : TaskState) (h : coreState s) :
    maxState TaskState.working s = s := by
  rcases h with h | h | h | h <;> rw [h] <;> decide

/-- C2: for every sequence of task-status-update events, the final
`task_state` is a status value present in the input sequence and dominates
every status value of the sequence in the precedence ordering
`failed > auth_required > input_required > working`, regardless of arrival
order. -/
theorem statusAggregator_highest_precedence (es : List A2aEvent)
    (hne : es ≠ [])
    (hupd : ∀ e ∈ es, ∃ st : TaskStatus,
      e = A2aEvent.statusUpdate st ∧ coreState st.state) :
    (processAll TaskResultAggregator.init es).task_state ∈ es.map eventState ∧
      ∀ s ∈ es.map eventState,
        prec s ≤ prec (processAll TaskResultAggregator.init es).task_state := by
  cases es with
  | nil => exact absurd rfl hne
  | cons e0 t =>
      obtain ⟨st0, he0, hc0⟩ := hupd e0 (List.mem_cons_self _ _)
      subst he0
      have hmap : (A2aEvent.statusUpdate st0 :: t).map eventState =
          st0.state :: t.map eventState := by simp [eventState]
      have hfin :=
        processAll_state (A2aEvent.statusUpdate st0 :: t) TaskResultAggregator.init
      rw [hmap] at hfin
      simp only [List.foldl_cons] at hfin
      rw [show TaskResultAggregator.init.task_state = TaskState.working from rfl,
        maxState_working st0.state hc0] at hfin
      refine ⟨?_, ?_⟩
      · rw [hfin, hmap]
        exact foldl_maxState_mem _ st0.state
      · intro s hs
        rw [hmap] at hs
        rw [hfin]
        exact foldl_maxState_le _ st0.state s hs

/-- Witness for C2 at the concrete sequence
`[input_required, failed, working]`. -/
theorem statusAggregator_highest_precedence_witness :
    (processAll TaskResultAggregator.init
        [A2aEvent.statusUpdate ⟨TaskState.input_required, none⟩,
          A2aEvent.statusUpdate ⟨TaskState.failed, none⟩,
          A2aEvent.statusUpdate ⟨TaskState.working, none⟩]).task_state ∈
      ([A2aEvent.statusUpdate ⟨TaskState.input_required, none⟩,
          A2aEvent.statusUpdate ⟨TaskState.failed, none⟩,
          A2aEvent.statusUpdate ⟨TaskState.working, none⟩].map eventState) ∧
      ∀ s ∈ ([A2aEvent.statusUpdate ⟨TaskState.input_required, none⟩,
          A2aEvent.statusUpdate ⟨TaskState.failed, none⟩,
          A2aEvent.statusUpdate ⟨TaskState.working, none⟩].map eventState),
        prec s ≤ prec (processAll TaskResultAggregator.init
          [A2aEvent.statusUpdate ⟨TaskState.input_required, none⟩,
            A2aEvent.statusUpdate ⟨TaskState.failed, none⟩,
            A2aEvent.statusUpdate ⟨TaskState.working, none⟩]).task_state :=
  statusAggregator_highest_precedence _ (List.cons_ne_nil _ _)
    (by intro e he; fin_cases he <;> exact ⟨_, rfl, by decide⟩)

/-- Once the state is `failed`, every further `maxState` step keeps it. -/
lemma foldl_maxState_failed (l : List TaskState) :
    l.foldl maxState TaskState.failed = TaskState.failed := by
  induction l with
  | nil => rfl
  | cons b t ih =>
      have hb : maxState TaskState.failed b = TaskState.failed := by
        cases b <;> decide
      simp [List.foldl, hb, ih]

/-- C9: once the aggregator's state is `failed`, processing any further
sequence of events leaves `task_state` equal to `failed`. -/
theorem statusAggregator_failed_irreversible (agg : TaskResultAggregator)
    (es : List A2aEvent) (h : agg.task_state = TaskState.failed) :
    (processAll agg es).task_state = TaskState.failed := by
  rw [processAll_state, h]
  exact foldl_maxState_failed _

/-- Witness for C9: a failed aggregator stays failed across a `working`
update and a non-status event. -/
theorem statusAggregator_failed_irreversible_witness :
    (processAll ⟨TaskState.failed, none⟩
        [A2aEvent.statusUpdate ⟨TaskState.working, none⟩,
          A2aEvent.other]).task_state = TaskState.failed :=
  statusAggregator_failed_irreversible _ _ rfl

/-- C8: whichever update branch is taken, the forwarded event's status is
normalized back to `working` (its message is left intact). -/
theorem statusAggregator_normalizes_event (agg : TaskResultAggregator)
    (s : TaskState) (m : Option String) :
    (process_event agg (A2aEvent.statusUpdate ⟨s, m⟩)).2 =
      A2aEvent.statusUpdate ⟨TaskState.working, m⟩ := rfl

/-! ## Gemini streaming aggregation (google_llm.py, streaming branch of
`Gemini.generate_content_async`) -/

/-- `google.genai.types.FinishReason` values the code compares against. -/
inductive FinishReason where
  | STOP
  | MAX_TOKENS
  | SAFETY
  | RECITATION
  | OTHER
deriving DecidableEq, Repr

/-- A content part as read by the streaming loop: `text` (`None` or a
string; the empty string is falsy like `None`), the `thought` flag
(`None`/`False` falsy), and whether `inline_data` is set (a set `Blob` is
truthy). -/
structure Part where
  text : Option String := none
  thought : Bool := false
  inline_data : Bool := false
deriving DecidableEq, Repr

/-- `types.Content`/`types.ModelContent`: an ordered list of parts. -/
structure Content where
  parts : List Part
deriving DecidableEq, Repr

/-- The fields of `LlmResponse` that the streaming loop reads or writes.
`usage_metadata` is abstracted to a numeric tag.  The source's boolean
flag marking non-final events is named `nonFinal` here. -/
structure LlmResponse where
  content : Option Content := none
  usage_metadata : Option Nat := none
  nonFinal : Bool := false
  error_code : Option FinishReason := none
  error_message : Option String := none
deriving DecidableEq, Repr

/-- The fields of `response.candidates[0]` read after the loop. -/
structure Candidate where
  finish_reason : Option FinishReason
  finish_message : Option String
deriving DecidableEq, Repr

/-- One streamed `response`: the `LlmResponse.create(response)` view used
inside the loop, plus the first candidate of `response.candidates` when
that list is non-empty (`none` models both a missing and an empty
candidate list, which are equally falsy). -/
structure RawChunk where
  llm : LlmResponse
  candidates : Option Candidate
deriving DecidableEq, Repr

/-- Python truthiness of an `Optional[str]`: `None` and `''` are falsy. -/
def truthyText : Option String → Bool
  | none => false
  | some s => s != ""

/-- `llm_response.content.parts[0]` when `content` is set and `parts` is
truthy (non-empty). -/
def firstPart? (lr : LlmResponse) : Option Part :=
  match lr.content with
  | none => none
  | some ct => ct.parts.head?

/-- The loop's accumulation variables `thought_text`, `text` and
`usage_metadata`. -/
structure AggState where
  thought_text : String
  text : String
  usage_metadata : Option Nat
deriving DecidableEq, Repr

/-- The variables' initial values (`''`, `''`, `None`). -/
def AggState.start : AggState := ⟨"", "", none⟩

/-- The events yielded by the streaming branch, tagged by yield site: the
in-loop merged-flush yield, the per-chunk yield of `llm_response`, and the
post-loop aggregated yield. -/
inductive AggEvent where
  | merged (r : LlmResponse)
  | chunk (r : LlmResponse)
  | final (r : LlmResponse)
deriving DecidableEq, Repr

/-- The parts list of a merged event: a thought part when `thought_text`
is non-empty, then a plain text part when `text` is non-empty. -/
def mergedParts (st : AggState) : List Part :=
  (if st.thought_text ≠ "" then
    [{ text := some st.thought_text, thought := true }] else []) ++
  (if st.text ≠ "" then [{ text := some st.text }] else [])

/-- One iteration of the `async for response in responses` loop body:
updates the accumulation variables and returns the yielded events in
order. -/
def processChunk (st : AggState) (c : RawChunk) : AggState × List AggEvent :=
  let lr := c.llm
  let st0 : AggState := { st with usage_metadata := lr.usage_metadata }
  match firstPart? lr with
  | some p0 =>
      if truthyText p0.text then
        let st1 :=
          if p0.thought then
            { st0 with thought_text := st0.thought_text ++ p0.text.getD "" }
          else
            { st0 with text := st0.text ++ p0.text.getD "" }
        (st1, [.chunk { lr with nonFinal := true }])
      else if (st0.thought_text ≠ "" ∨ st0.text ≠ "") ∧ ¬p0.inline_data then
        ({ st0 with thought_text := "", text := "" },
          [.merged { content := some ⟨mergedParts st0⟩,
                     usage_metadata := lr.usage_metadata },
            .chunk lr])
      else
        (st0, [.chunk lr])
  | none =>
      if st0.thought_text ≠ "" ∨ st0.text ≠ "" then
        ({ st0 with thought_text := "", text := "" },
          [.merged { content := some ⟨mergedParts st0⟩,
                     usage_metadata := lr.usage_metadata },
            .chunk lr])
      else
        (st0, [.chunk lr])

/-- Run the loop over a whole chunk sequence, collecting yielded events. -/
def aggRun (st : AggState) : List RawChunk → AggState × List AggEvent
  | [] => (st, [])
  | c :: cs =>
      let step := processChunk st c
      let rest := aggRun step.1 cs
      (rest.1, step.2 ++ rest.2)

/-- The post-loop aggregated yield: emitted when text is pending, the
stream was non-empty (`response` is not `None`) and the last response's
`candidates` list is truthy. -/
def finalize (st : AggState) (last? : Option RawChunk) : List AggEvent :=
  if st.text ≠ "" ∨ st.thought_text ≠ "" then
    match last? with
    | some c =>
        match c.candidates with
        | some cand =>
            [.final { content := some ⟨mergedParts st⟩,
                      error_code :=
                        if cand.finish_reason = some FinishReason.STOP then
                          none
                        else cand.finish_reason,
                      error_message :=
                        if cand.finish_reason = some FinishReason.STOP then
                          none
                        else cand.finish_message,
                      usage_metadata := st.usage_metadata }]
        | none => []
    | none => []
  else []

/-- The whole streaming branch: the loop followed by the final aggregated
yield. -/
def generate_content_stream (cs : List RawChunk) : List AggEvent :=
  let run := aggRun AggState.start cs
  run.2 ++ finalize run.1 cs.getLast?

/-- The thought text carried by an in-loop merged event (`""` for other
events). -/
def mergedThoughtText : AggEvent → String
  | .merged r =>
      match r.content with
      | some ct =>
          String.join (ct.parts.map fun p =>
            if p.thought then p.text.getD "" else "")
      | none => ""
  | _ => ""

/-- The answer text carried by an in-loop merged event (`""` for other
events). -/
def mergedAnswerText : AggEvent → String
  | .merged r =>
      match r.content with
      | some ct =>
          String.join (ct.parts.map fun p =>
            if p.thought then "" else p.text.getD "")
      | none => ""
  | _ => ""

/-- The thought text a chunk contributes to the buffers: the first part's
text when it is truthy and flagged as thought. -/
def thoughtContrib (c : RawChunk) : String :=
  match firstPart? c.llm with
  | some p => if truthyText p.text && p.thought then p.text.getD "" else ""
  | none => ""

/-- The answer text a chunk contributes to the buffers: the first part's
text when it is truthy and not flagged as thought. -/
def answerContrib (c : RawChunk) : String :=
  match firstPart? c.llm with
  | some p => if truthyText p.text && !p.thought then p.text.getD "" else ""
  | none => ""

/-- `String.join` distributes over list append. -/
lemma join_append (l₁ l₂ : List String) :
    String.join (l₁ ++ l₂) = String.join l₁ ++ String.join l₂ := by
  apply String.ext
  simp [String.data_join]

/-- `String.join` peels off the head. -/
lemma join_cons (s : String) (l : List String) :
    String.join (s :: l) = s ++ String.join l := by
  apply String.ext
  simp [String.data_join]

/-- A flush event's parts carry exactly the pending thought buffer as
their joined thought text. -/
lemma mergedParts_thought_join (st : AggState) :
    List.foldl (fun r s => r ++ s) ""
      ((mergedParts st).map fun p =>
        if p.thought = true then p.text.getD "" else "") = st.thought_text := by
  unfold mergedParts
  by_cases h1 : st.thought_text = "" <;> by_cases h2 : st.text = "" <;>
    simp [h1, h2, String.empty_append, String.append_empty]

/-- A flush event's parts carry exactly the pending answer buffer as
their joined answer text. -/
lemma mergedParts_answer_join (st : AggState) :
    List.foldl (fun r s => r ++ s) ""
      ((mergedParts st).map fun p =>
        if p.thought = true then "" else p.text.getD "") = st.text := by
  unfold mergedParts
  by_cases h1 : st.thought_text = "" <;> by_cases h2 : st.text = "" <;>
    simp [h1, h2, String.empty_append, String.append_empty]

/-- One loop iteration conserves text: merged-event text plus the new
buffer equals the old buffer plus the chunk's contribution, per kind. -/
lemma processChunk_conservation (st : AggState) (c : RawChunk) :
    String.join ((processChunk st c).2.map mergedThoughtText) ++
        (processChunk st c).1.thought_text = st.thought_text ++ thoughtContrib c
    ∧ String.join ((processChunk st c).2.map mergedAnswerText) ++
        (processChunk st c).1.text = st.text ++ answerContrib c := by
  unfold processChunk thoughtContrib answerContrib
  cases hfp : firstPart? c.llm with
  | none =>
      by_cases h1 : st.thought_text = "" <;> by_cases h2 : st.text = "" <;>
        simp [hfp, h1, h2, mergedThoughtText, mergedAnswerText, String.join,
          mergedParts_thought_join, mergedParts_answer_join,
          String.empty_append, String.append_empty]
  | some p0 =>
      by_cases htxt : truthyText p0.text
      · by_cases hth : p0.thought <;>
          simp [hfp, htxt, hth, mergedThoughtText, mergedAnswerText,
            String.join, String.empty_append, String.append_empty]
      · by_cases hinl : p0.inline_data
        · simp [hfp, htxt, hinl, mergedThoughtText, mergedAnswerText,
            String.join, String.empty_append, String.append_empty]
        · by_cases h1 : st.thought_text = "" <;> by_cases h2 : st.text = "" <;>
            simp [hfp, htxt, hinl, h1, h2, mergedThoughtText, mergedAnswerText,
              String.join, mergedParts_thought_join, mergedParts_answer_join,
              String.empty_append, String.append_empty]

/-- Conservation over a whole run, generalized over the starting state. -/
lemma aggRun_conservation (cs : List RawChunk) :
    ∀ st : AggState,
      String.join (((aggRun st cs).2).map mergedThoughtText) ++
          (aggRun st cs).1.thought_text =
        st.thought_text ++ String.join (cs.map thoughtContrib)
      ∧ String.join (((aggRun st cs).2).map mergedAnswerText) ++
          (aggRun st cs).1.text =
        st.text ++ String.join (cs.map answerContrib) := by
  induction cs with
  | nil =>
      intro st
      constructor <;>
        simp [aggRun, String.join, String.append_empty, String.empty_append]
  | cons c t ih =>
      intro st
      obtain ⟨ht, ha⟩ := processChunk_conservation st c
      obtain ⟨iht, iha⟩ := ih (processChunk st c).1
      have e1 : aggRun st (c :: t) =
          ((aggRun (processChunk st c).1 t).1,
            (processChunk st c).2 ++ (aggRun (processChunk st c).1 t).2) := rfl
      constructor
      · rw [e1]
        simp only [List.map_append, join_append, List.map_cons, join_cons,
          String.append_assoc]
        rw [iht, ← String.append_assoc, ht, String.append_assoc]
      · rw [e1]
        simp only [List.map_append, join_append, List.map_cons, join_cons,
          String.append_assoc]
        rw [iha, ← String.append_assoc, ha, String.append_assoc]

/-- C1: for every chunk sequence, the concatenation of the thought
(respectively answer) texts of all merged events, followed by the pending
thought (answer) buffer, equals the concatenation in arrival order of the
thought (answer) text segments the chunks carried — no chunk's text is
duplicated or dropped. -/
theorem streamAggregator_text_conservation (cs : List RawChunk) :
    String.join (((aggRun AggState.start cs).2).map mergedThoughtText) ++
        (aggRun AggState.start cs).1.thought_text =
      String.join (cs.map thoughtContrib)
    ∧ String.join (((aggRun AggState.start cs).2).map mergedAnswerText) ++
        (aggRun AggState.start cs).1.text =
      String.join (cs.map answerContrib) := by
  obtain ⟨h1, h2⟩ := aggRun_conservation cs AggState.start
  refine ⟨?_, ?_⟩
  · rw [h1.trans (String.empty_append _)]
  · rw [h2.trans (String.empty_append _)]

/-- C6: a chunk whose first content part carries binary data and no truthy
text never triggers a merge-flush: the pending buffers are left unchanged
(so earlier text stays buffered for the next flush) and the only yielded
event is the chunk's own pass-through. -/
theorem streamAggregator_binary_transparent (st : AggState) (c : RawChunk)
    (ct : Content) (p0 : Part) (ps : List Part)
    (hct : c.llm.content = some ct) (hp : ct.parts = p0 :: ps)
    (hbin : p0.inline_data = true) (htext : truthyText p0.text = false) :
    processChunk st c =
      ({ st with usage_metadata := c.llm.usage_metadata },
        [AggEvent.chunk c.llm]) := by
  have hfp : firstPart? c.llm = some p0 := by simp [firstPart?, hct, hp]
  unfold processChunk
  simp [hfp, htext, hbin]

/-- Witness for C6: an audio-only chunk leaves the buffers `"T"`/`"A"`
untouched and passes through unmerged. -/
theorem streamAggregator_binary_transparent_witness :
    processChunk ⟨"T", "A", none⟩
        ⟨{ content := some ⟨[{ inline_data := true }]⟩,
           usage_metadata := some 3 }, none⟩ =
      (⟨"T", "A", some 3⟩,
        [AggEvent.chunk
          { content := some ⟨[{ inline_data := true }]⟩,
            usage_metadata := some 3 }]) :=
  streamAggregator_binary_transparent _ _ _ _ _ rfl rfl rfl rfl

/-- The `LlmResponse` carried by an in-loop merged event, if any. -/
def mergedEvent? : AggEvent → Option LlmResponse
  | .merged r => some r
  | _ => none

/-- The `content` of a pass-through chunk event, if any. -/
def chunkContent? : AggEvent → Option (Option Content)
  | .chunk r => some r.content
  | _ => none

/-- C10: aggregation only reads a chunk's first content part — replacing
the parts after the first changes neither the resulting buffers nor the
merged events, and the tail parts' text is forwarded only inside the
chunk's own pass-through event (whose content is the chunk's own parts
list). -/
theorem streamAggregator_first_part_only (st : AggState) (lr : LlmResponse)
    (cand : Option Candidate) (p0 : Part) (ps ps' : List Part) :
    (processChunk st ⟨{ lr with content := some ⟨p0 :: ps⟩ }, cand⟩).1 =
      (processChunk st ⟨{ lr with content := some ⟨p0 :: ps'⟩ }, cand⟩).1
    ∧ (processChunk st
          ⟨{ lr with content := some ⟨p0 :: ps⟩ }, cand⟩).2.filterMap mergedEvent? =
      (processChunk st
          ⟨{ lr with content := some ⟨p0 :: ps'⟩ }, cand⟩).2.filterMap mergedEvent?
    ∧ (processChunk st
          ⟨{ lr with content := some ⟨p0 :: ps⟩ }, cand⟩).2.filterMap chunkContent? =
      [some (⟨p0 :: ps⟩ : Content)] := by
  have hfp1 : firstPart? { lr with content := some ⟨p0 :: ps⟩ } = some p0 := by
    simp [firstPart?]
  have hfp2 : firstPart? { lr with content := some ⟨p0 :: ps'⟩ } = some p0 := by
    simp [firstPart?]
  by_cases htxt : truthyText p0.text
  · by_cases hth : p0.thought <;>
      simp [processChunk, hfp1, hfp2, htxt, hth, mergedEvent?, chunkContent?]
  · by_cases hinl : p0.inline_data
    · simp [processChunk, hfp1, hfp2, htxt, hinl, mergedEvent?, chunkContent?]
    · by_cases h1 : st.thought_text = "" <;> by_cases h2 : st.text = "" <;>
        simp [processChunk, hfp1, hfp2, htxt, hinl, h1, h2, mergedEvent?,
          chunkContent?]

/-- Every loop iteration overwrites the tracked usage with the current
chunk's usage. -/
lemma processChunk_usage (st : AggState) (c : RawChunk) :
    (processChunk st c).1.usage_metadata = c.llm.usage_metadata := by
  unfold processChunk
  cases hfp : firstPart? c.llm <;> simp only [hfp] <;> split_ifs <;> rfl

/-- After a non-empty run the tracked usage is the last chunk's usage. -/
lemma aggRun_usage (cs : List RawChunk) :
    ∀ (st : AggState) (c : RawChunk), cs.getLast? = some c →
      (aggRun st cs).1.usage_metadata = c.llm.usage_metadata := by
  induction cs with
  | nil => intro st c h; cases h
  | cons a t ih =>
      intro st c h
      cases t with
      | nil =>
          have hac : a = c := by simpa using h
          rw [← hac]
          exact processChunk_usage st a
      | cons b t' =>
          have h' : (b :: t').getLast? = some c := by
            simpa [List.getLast?_cons_cons] using h
          simpa [aggRun] using ih (processChunk st a).1 c h'

/-- C5: when the stream is non-empty, text is pending and the last chunk
reports candidates, the streaming branch emits exactly one final merged
event after the loop: its content is the pending buffers (thought part
before answer part), its error fields are `none` when the reported finish
reason is plain `STOP` and the reported finish reason/message otherwise,
and its usage is the last chunk's usage. -/
theorem streamAggregator_final_event (cs : List RawChunk) (c : RawChunk)
    (cand : Candidate)
    (hlast : cs.getLast? = some c)
    (hcand : c.candidates = some cand)
    (hbuf : (aggRun AggState.start cs).1.text ≠ "" ∨
      (aggRun AggState.start cs).1.thought_text ≠ "") :
    generate_content_stream cs =
      (aggRun AggState.start cs).2 ++
        [AggEvent.final
          { content := some ⟨mergedParts (aggRun AggState.start cs).1⟩,
            error_code :=
              if cand.finish_reason = some FinishReason.STOP then none
              else cand.finish_reason,
            error_message :=
              if cand.finish_reason = some FinishReason.STOP then none
              else cand.finish_message,
            usage_metadata := c.llm.usage_metadata }] := by
  have husage := aggRun_usage cs AggState.start c hlast
  unfold generate_content_stream finalize
  rw [hlast]
  simp [hcand, hbuf, husage]

/-- Witness for C5: a single thought chunk whose response reports a
`MAX_TOKENS` finish reason yields the pass-through event and one final
merged event carrying the reason, message and usage. -/
theorem streamAggregator_final_event_witness :
    generate_content_stream
        [⟨{ content := some ⟨[{ text := some "Hi", thought := true }]⟩,
            usage_metadata := some 7 },
          some ⟨some FinishReason.MAX_TOKENS, some "len"⟩⟩] =
      (aggRun AggState.start
        [⟨{ content := some ⟨[{ text := some "Hi", thought := true }]⟩,
            usage_metadata := some 7 },
          some ⟨some FinishReason.MAX_TOKENS, some "len"⟩⟩]).2 ++
        [AggEvent.final
          { content := some ⟨mergedParts (aggRun AggState.start
              [⟨{ content := some ⟨[{ text := some "Hi", thought := true }]⟩,
                  usage_metadata := some 7 },
                some ⟨some FinishReason.MAX_TOKENS, some "len"⟩⟩]).1⟩,
            error_code :=
              if (some FinishReason.MAX_TOKENS : Option FinishReason) =
                  some FinishReason.STOP then none
              else some FinishReason.MAX_TOKENS,
            error_message :=
              if (some FinishReason.MAX_TOKENS : Option FinishReason) =
                  some FinishReason.STOP then none
              else some "len",
            usage_metadata := some 7 }] :=
  streamAggregator_final_event
    [⟨{ content := some ⟨[{ text := some "Hi", thought := true }]⟩,
        usage_metadata := some 7 },
      some ⟨some FinishReason.MAX_TOKENS, some "len"⟩⟩]
    ⟨{ content := some ⟨[{ text := some "Hi", thought := true }]⟩,
        usage_metadata := some 7 },
      some ⟨some FinishReason.MAX_TOKENS, some "len"⟩⟩
    ⟨some FinishReason.MAX_TOKENS, some "len"⟩
    rfl rfl (Or.inr (by decide))

/-! ## Retry wrapper (google_llm.py: `RetryConfig`,
`retry_on_resumable_error`, `Gemini._build_retry_wrapper`).

The wrapper is built from the tenacity library:
`retry(stop=stop_after_attempt(max_retries), wait=wait_exponential(multiplier=initial_delay_sec, min=initial_delay_sec, max=max_delay_sec), retry=predicate, reraise=True)`.
tenacity is an external dependency; its documented semantics are embedded
below: attempts are numbered from 1; after a failed attempt the retry
predicate is consulted (if it rejects, the original error is raised at
once), then `stop_after_attempt(n)` (stop once `attempt_number >= n`,
re-raising the original error because `reraise=True`), then the wait
`wait_exponential = max(min, min(multiplier * exp_base^(attempt_number-1), max))`
with tenacity's default `exp_base = 2` — `_build_retry_wrapper` does not
pass `exp_base`. -/

/-- The errors `retry_on_resumable_error` classifies: `ClientError` or
`ServerError` with an HTTP code, or anything else. -/
inductive GenaiError where
  | clientError (code : Nat)
  | serverError (code : Nat)
  | otherError
deriving DecidableEq, Repr

/-- `retry_on_resumable_error`: retry only on resource-exhausted
(`ClientError` 429) or service-unavailable (`ServerError` 503). -/
def retry_on_resumable_error : GenaiError → Bool
  | .clientError code => code == 429
  | .serverError code => code == 503
  | .otherError => false

/-- `RetryConfig` with its default field values.  Delays are in whole
seconds, as in the source (`int` fields). -/
structure RetryConfig where
  initial_delay_sec : Nat := 5
  expo_base : Nat := 2
  max_delay_sec : Nat := 60
  max_retries : Nat := 5
  retry_predicate : Option (GenaiError → Bool) := none

/-- tenacity's `wait_exponential(multiplier, max, exp_base, min)` at a
1-based attempt number. -/
def wait_exponential (multiplier mx expBase mn attemptNumber : Nat) : Nat :=
  max mn (min (multiplier * expBase ^ (attemptNumber - 1)) mx)

/-- The wait schedule `_build_retry_wrapper` installs: multiplier and min
are `initial_delay_sec`, max is `max_delay_sec`, and the exponential base
is tenacity's default 2 (`expo_base` is not passed through). -/
def geminiWait (config : RetryConfig) (attemptNumber : Nat) : Nat :=
  wait_exponential config.initial_delay_sec config.max_delay_sec 2
    config.initial_delay_sec attemptNumber

/-- Outcome of one wrapped invocation: the surfaced result, how many times
the underlying operation was called, and the total time slept between
attempts. -/
structure RetryRun (α : Type) where
  result : Except GenaiError α
  attempts : Nat
  totalDelay : Nat
deriving Repr

/-- The tenacity retry loop: attempt, consult the retry predicate, consult
`stop_after_attempt`, sleep, repeat.  `outcomes n` is what the underlying
call does on its (0-based) `n`-th invocation.  `fuel` only bounds the
recursion; callers pass enough for the stop condition to fire first. -/
def retryGo {α : Type} (pred : GenaiError → Bool) (maxAttempt : Nat)
    (waitFn : Nat → Nat) (outcomes : Nat → Except GenaiError α) :
    Nat → Nat → Nat → RetryRun α
  | fuel, attemptNumber, delay =>
      match outcomes (attemptNumber - 1) with
      | .ok v => ⟨.ok v, attemptNumber, delay⟩
      | .error e =>
          if pred e then
            if maxAttempt ≤ attemptNumber then ⟨.error e, attemptNumber, delay⟩
            else
              match fuel with
              | 0 => ⟨.error e, attemptNumber, delay⟩
              | fuel' + 1 =>
                  retryGo pred maxAttempt waitFn outcomes fuel'
                    (attemptNumber + 1) (delay + waitFn attemptNumber)
          else ⟨.error e, attemptNumber, delay⟩

/-- A call wrapped by `_build_retry_wrapper`: the predicate defaults to
`retry_on_resumable_error`, the stop bound is `max_retries`, the wait
schedule is `geminiWait`. -/
def invokeWithRetry {α : Type} (config : RetryConfig)
    (outcomes : Nat → Except GenaiError α) : RetryRun α :=
  retryGo (config.retry_predicate.getD retry_on_resumable_error)
    config.max_retries (geminiWait config) outcomes
    config.max_retries 1 0

/-- C7: an error the default classification rejects (anything but
`ClientError` 429 / `ServerError` 503, e.g. malformed-request,
authentication or not-found client errors) results in exactly one call
attempt, no waiting, and the original error re-raised unmodified. -/
theorem retry_nonretryable_single_attempt {α : Type} (config : RetryConfig)
    (outcomes : Nat → Except GenaiError α) (e : GenaiError)
    (hpred : config.retry_predicate = none)
    (h0 : outcomes 0 = .error e)
    (he : retry_on_resumable_error e = false) :
    invokeWithRetry config outcomes = ⟨.error e, 1, 0⟩ := by
  unfold invokeWithRetry
  rw [hpred]
  unfold retryGo
  simp [h0, he]

/-- Witness for C7: a not-found `ClientError` 404 is tried once and
surfaced as-is. -/
theorem retry_nonretryable_single_attempt_witness :
    invokeWithRetry (α := Nat) { } (fun _ => .error (.clientError 404)) =
      ⟨.error (.clientError 404), 1, 0⟩ :=
  retry_nonretryable_single_attempt { } (fun _ => .error (.clientError 404))
    (.clientError 404) rfl rfl rfl

/-- The loop makes at most `max(start, maxAttempt)` attempts. -/
lemma retryGo_attempts_le {α : Type} (pred : GenaiError → Bool)
    (maxAttempt : Nat) (waitFn : Nat → Nat)
    (outcomes : Nat → Except GenaiError α) :
    ∀ fuel aN d : Nat,
      (retryGo pred maxAttempt waitFn outcomes fuel aN d).attempts ≤
        max aN maxAttempt := by
  intro fuel
  induction fuel with
  | zero =>
      intro aN d
      unfold retryGo
      cases houtcome : outcomes (aN - 1) with
      | ok v => simp
      | error e =>
          by_cases hp : pred e <;> by_cases hstop : maxAttempt ≤ aN <;>
            simp [hp, hstop]
  | succ fuel ih =>
      intro aN d
      unfold retryGo
      cases houtcome : outcomes (aN - 1) with
      | ok v => simp
      | error e =>
          by_cases hp : pred e
          · by_cases hstop : maxAttempt ≤ aN
            · simp [hp, hstop]
            · simp only [hp, hstop, if_true, if_false]
              have h := ih (aN + 1) (d + waitFn aN)
              omega
          · simp [hp]

/-- When every wait is at most `W`, the loop sleeps at most
`(maxAttempt - start) * W` in total. -/
lemma retryGo_delay_le {α : Type} (pred : GenaiError → Bool)
    (maxAttempt : Nat) (waitFn : Nat → Nat)
    (outcomes : Nat → Except GenaiError α) (W : Nat)
    (hW : ∀ k, waitFn k ≤ W) :
    ∀ fuel aN d : Nat,
      (retryGo pred maxAttempt waitFn outcomes fuel aN d).totalDelay ≤
        d + (maxAttempt - aN) * W := by
  intro fuel
  induction fuel with
  | zero =>
      intro aN d
      unfold retryGo
      cases houtcome : outcomes (aN - 1) with
      | ok v => simp
      | error e =>
          by_cases hp : pred e <;> by_cases hstop : maxAttempt ≤ aN <;>
            simp [hp, hstop]
  | succ fuel ih =>
      intro aN d
      unfold retryGo
      cases houtcome : outcomes (aN - 1) with
      | ok v => simp
      | error e =>
          by_cases hp : pred e
          · by_cases hstop : maxAttempt ≤ aN
            · simp [hp, hstop]
            · simp only [hp, hstop, if_true, if_false]
              have h1 := ih (aN + 1) (d + waitFn aN)
              have h2 := hW aN
              have hm : (maxAttempt - aN) * W =
                  (maxAttempt - (aN + 1)) * W + W := by
                have hx : maxAttempt - aN = (maxAttempt - (aN + 1)) + 1 := by
                  omega
                rw [hx, Nat.succ_mul]
              rw [hm]
              generalize (maxAttempt - (aN + 1)) * W = X at h1 ⊢
              omega
          · simp [hp]

/-- The counterexample to C3 as stated: with
`initial_delay_sec = 1000 > max_delay_sec = 1` and `max_retries = 2`, a
persistently rate-limited call sleeps 1000 seconds in total, exceeding
`max_retries * max_delay = 2`. -/
theorem retry_delay_counterexample :
    ¬ ((invokeWithRetry (α := Nat)
          { initial_delay_sec := 1000, max_delay_sec := 1, max_retries := 2 }
          (fun _ => .error (.clientError 429))).totalDelay ≤
        ({ initial_delay_sec := 1000, max_delay_sec := 1,
           max_retries := 2 } : RetryConfig).max_retries *
        ({ initial_delay_sec := 1000, max_delay_sec := 1,
           max_retries := 2 } : RetryConfig).max_delay_sec) := by
  decide

/-- C3 (amended): `invokeWithRetry` calls the underlying operation at most
`max_retries + 1` times unconditionally; and provided
`initial_delay_sec ≤ max_delay_sec`, the total time spent waiting between
attempts never exceeds `max_retries * max_delay_sec`. -/
theorem retry_bound_amended {α : Type} (config : RetryConfig)
    (outcomes : Nat → Except GenaiError α) :
    (invokeWithRetry config outcomes).attempts ≤ config.max_retries + 1 ∧
    (config.initial_delay_sec ≤ config.max_delay_sec →
      (invokeWithRetry config outcomes).totalDelay ≤
        config.max_retries * config.max_delay_sec) := by
  constructor
  · have h := retryGo_attempts_le
      (config.retry_predicate.getD retry_on_resumable_error)
      config.max_retries (geminiWait config) outcomes config.max_retries 1 0
    unfold invokeWithRetry
    omega
  · intro hdelay
    have hW : ∀ k, geminiWait config k ≤ config.max_delay_sec := by
      intro k
      unfold geminiWait wait_exponential
      exact max_le hdelay (min_le_right _ _)
    have h := retryGo_delay_le
      (config.retry_predicate.getD retry_on_resumable_error)
      config.max_retries (geminiWait config) outcomes
      config.max_delay_sec hW config.max_retries 1 0
    have hmul : (config.max_retries - 1) * config.max_delay_sec ≤
        config.max_retries * config.max_delay_sec :=
      Nat.mul_le_mul_right _ (Nat.sub_le _ _)
    unfold invokeWithRetry
    omega

/-- Witness for C3 (amended) at the default config and a call that is
rate-limited twice, then succeeds; the delay-bound hypothesis `5 ≤ 60` is
discharged concretely. -/
theorem retry_bound_amended_witness :
    (invokeWithRetry (α := Nat) { }
        (fun n => if n < 2 then .error (.clientError 429) else .ok 42)).attempts ≤
      ({ } : RetryConfig).max_retries + 1 ∧
    (invokeWithRetry (α := Nat) { }
        (fun n => if n < 2 then .error (.clientError 429) else .ok 42)).totalDelay ≤
      ({ } : RetryConfig).max_retries * ({ } : RetryConfig).max_delay_sec :=
  ⟨(retry_bound_amended { }
      (fun n => if n < 2 then .error (.clientError 429) else .ok 42)).1,
    (retry_bound_amended { }
      (fun n => if n < 2 then .error (.clientError 429) else .ok 42)).2
      (by decide)⟩

/-- C4's divergence, evaluated: at 0-based attempt index 2 under the
policy `{initial_delay=1, exponential_base=3, max_delay=60}` the wrapper
waits `max(1, min(1 * 2^2, 60)) = 4` seconds — the configured `expo_base`
is never passed to tenacity, whose default base 2 is used, and the result
is not the claimed `min(60, 1 * 3^2) = 9`. -/
theorem geminiWait_ignores_expo_base :
    geminiWait { initial_delay_sec := 1, expo_base := 3, max_delay_sec := 60 } 3
      = 4 ∧
    (∀ b : Nat,
      geminiWait { initial_delay_sec := 1, expo_base := b, max_delay_sec := 60 } 3
        = 4) ∧
    min 60 (1 * 3 ^ 2) = 9 :=
  ⟨by decide, fun b => rfl, by decide⟩

end Adk
